import Mathlib

/-!
Verification of the pomodoro-stopwatch firmware core against its
natural-language specification.

The development shallowly embeds the firmware's data model and operations:

* 32-bit unsigned arithmetic is embedded as natural numbers together with
  explicit reduction modulo 2^32 (`u32sub`, `u32add`); theorems carry the
  bound `< 2^32` as a hypothesis where a value stands for a `uint32_t`.
* `float` values are embedded as rational numbers; the firmware's float
  helpers (`clampf`, `lerpf`, the cubic-Bezier easing solver) are direct
  translations to `ℚ`.
* The global `millis()` clock is passed explicitly as a `now : ℕ` argument.
* Functions that only draw to the TFT are embedded as functions that return
  the list of emitted draw operations; the screen projection of an angle to
  pixel coordinates (a `cos`/`sin`/`lrintf` pipeline, not representable
  over `ℚ`) is abstracted as an explicit `proj` parameter.
* The source snapshot contains two revisions of some modules.  The embedded
  `PomodoroState` is the union of the fields of both revisions of the C
  struct, so that every cited function can be embedded without change.
-/

namespace Pomodoro

/-! ## Constants (src/src/pomodoro.h) -/

def U32 : ℕ := 2 ^ 32

def UINT32_MAX : ℕ := U32 - 1

def OPTION_COUNT : ℕ := 4

def OPTIONS : List ℕ := [15, 30, 60, 0]

def ENCODER_THROTTLE_MS : ℕ := 1000

def SETTING_ANIM_DURATION_MS : ℕ := 300

def PAUSE_SLEEP_DELAY_MS : ℕ := 180000

def MAX_VALUE_ANIMATIONS : ℕ := 6

/-- Embedded value of the float constant `ANIMATION_EPSILON = 1e-4f`. -/
def ANIMATION_EPSILON : ℚ := 1 / 10000

/-- Embedded value of the float constant `SETTING_ANIM_EPSILON = 1e-4f`
(the tween revision of the header). -/
def SETTING_ANIM_EPSILON : ℚ := 1 / 10000

/-- Anonymous-namespace constant `ANGLE_EPS = 0.25f` of src/src/render.cpp. -/
def ANGLE_EPS : ℚ := 1 / 4

/-- Anonymous-namespace constant `POINTER_RESTORE_SPAN = 2.5f`. -/
def POINTER_RESTORE_SPAN : ℚ := 5 / 2

/-- Embeds `rgb565`: packs 8-bit channels into a 16-bit 5-6-5 color. -/
def rgb565 (r g b : ℕ) : ℕ :=
  ((r &&& 0xF8) <<< 8) ||| ((g &&& 0xFC) <<< 3) ||| (b >>> 3)

def COL_PRIMARY : ℕ := rgb565 255 107 87

def COL_BG : ℕ := 0xfffa

def COL_BG_PAUSED : ℕ := rgb565 255 235 235

def COL_BLACK : ℕ := 0x0000

def COL_RED : ℕ := COL_PRIMARY

def COL_RED_DARK : ℕ := 0xe2a8

def COL_LIGHTRED : ℕ := 0xFBE0

def COL_WHITE : ℕ := 0xFFFF

/-! ## 32-bit modular arithmetic helpers -/

/-- Embeds C `uint32_t` subtraction `a - b` (wraparound semantics). -/
def u32sub (a b : ℕ) : ℕ := (a % U32 + (U32 - b % U32)) % U32

/-- Embeds C `uint32_t` addition `a + b` (wraparound semantics). -/
def u32add (a b : ℕ) : ℕ := (a + b) % U32

/-! ## Float helpers (src/src/pomodoro.h), embedded over `ℚ` -/

/-- Embeds `clampf(v, a, b)`. -/
def clampf (v a b : ℚ) : ℚ := if v < a then a else if b < v then b else v

/-- Embeds `lerpf(a, b, t) = a + (b - a) * t`. -/
def lerpf (a b t : ℚ) : ℚ := a + (b - a) * t

/-! ## Clock arithmetic (src/unnamed/part_003, part_004) -/

/-- Embeds `elapsedSince(since, now)` from src/unnamed/part_004:
`(now >= since) ? (now - since) : (UINT32_MAX - since + 1U + now)`. -/
def elapsedSince (since now : ℕ) : ℕ :=
  if since ≤ now then now - since else UINT32_MAX - since + 1 + now

/-! ## Mode and state (src/src/pomodoro.h plus the tween-revision fields) -/

inductive Mode where
  | SETTING
  | RUNNING
  | PAUSED
  | TIMEOUT
  | SLEEPING
deriving DecidableEq, Repr

/-- Easing dispatch: the firmware stores an `EaseFn` function pointer that is
always one of the four provided easings, embedded here as a closed enum. -/
inductive EaseKind where
  | linear
  | easeIn
  | easeOut
  | easeInOut
deriving DecidableEq, Repr

/-- Embeds `cubicBezierValue(t, p0, p1, p2, p3)` from src/unnamed/part_007. -/
def cubicBezierValue (t p0 p1 p2 p3 : ℚ) : ℚ :=
  (1 - t) ^ 3 * p0 + 3 * (1 - t) ^ 2 * t * p1 + 3 * (1 - t) * t ^ 2 * p2 + t ^ 3 * p3

/-- Embeds `cubicBezierDerivative(t, p0, p1, p2, p3)` from src/unnamed/part_007. -/
def cubicBezierDerivative (t p0 p1 p2 p3 : ℚ) : ℚ :=
  3 * (1 - t) ^ 2 * (p1 - p0) + 6 * (1 - t) * t * (p2 - p1) + 3 * t ^ 2 * (p3 - p2)

/-- Embeds the 5-iteration Newton loop of `cubicBezierEase`
(src/unnamed/part_007): fuel-indexed recursion, with the source's early
exit when the residual or the derivative is below `1e-5`. -/
def bezNewton : ℕ → ℚ → ℚ → ℚ → ℚ → ℚ
  | 0, u, _, _, _ => u
  | n + 1, u, x, x1, x2 =>
    let current := cubicBezierValue u 0 x1 x2 1 - x
    let deriv := cubicBezierDerivative u 0 x1 x2 1
    if |current| < 1 / 100000 ∨ |deriv| < 1 / 100000 then u
    else bezNewton n (clampf (u - current / deriv) 0 1) x x1 x2

/-- Embeds the 6-iteration bisection fallback of `cubicBezierEase`
(src/unnamed/part_007); the source keeps the last midpoint as `u`. -/
def bezBisect : ℕ → ℚ → ℚ → ℚ → ℚ → ℚ → ℚ → ℚ
  | 0, _, _, u, _, _, _ => u
  | n + 1, lo, hi, _, x, x1, x2 =>
    let mid := (lo + hi) / 2
    let midX := cubicBezierValue mid 0 x1 x2 1
    if midX < x then bezBisect n mid hi mid x x1 x2
    else bezBisect n lo mid mid x x1 x2

/-- Embeds `cubicBezierEase(x, x1, y1, x2, y2)` from src/unnamed/part_007. -/
def cubicBezierEase (x0 x1 y1 x2 y2 : ℚ) : ℚ :=
  let x := clampf x0 0 1
  let u := bezNewton 5 x x x1 x2
  let solvedX := cubicBezierValue u 0 x1 x2 1
  let u2 := if 1 / 1000 < |solvedX - x| then bezBisect 6 0 1 u x x1 x2 else u
  clampf (cubicBezierValue u2 0 y1 y2 1) 0 1

/-- Embeds `easeLinear(t) = clampf(t, 0, 1)`. -/
def easeLinear (t : ℚ) : ℚ := clampf t 0 1

/-- Embeds `easeIn(t) = cubicBezierEase(t, 0.42, 0, 1, 1)`. -/
def easeInQ (t : ℚ) : ℚ := cubicBezierEase t (42 / 100) 0 1 1

/-- Embeds `easeOut(t) = cubicBezierEase(t, 0, 0, 0.58, 1)`. -/
def easeOutQ (t : ℚ) : ℚ := cubicBezierEase t 0 0 (58 / 100) 1

/-- Embeds `easeInOut(t) = cubicBezierEase(t, 0.42, 0, 0.58, 1)`. -/
def easeInOutQ (t : ℚ) : ℚ := cubicBezierEase t (42 / 100) 0 (58 / 100) 1

/-- Applies the easing selected by an `EaseKind` tag. -/
def evalEase : EaseKind → ℚ → ℚ
  | .linear => easeLinear
  | .easeIn => easeInQ
  | .easeOut => easeOutQ
  | .easeInOut => easeInOutQ

/-- Embeds `FloatTween` (the tween revision of the header, src/unnamed/part_001
lines 107-155); `from`/`to` are renamed `fromV`/`toV` (keywords in Lean). -/
structure FloatTween where
  fromV : ℚ := 0
  toV : ℚ := 0
  start : ℕ := 0
  duration : ℕ := 0
  ease : EaseKind := .linear
  active : Bool := false
deriving DecidableEq, Repr

/-- Embeds `FloatTween::snapTo(value)`. -/
def FloatTween.snapTo (v : ℚ) : FloatTween :=
  { fromV := v, toV := v, start := 0, duration := 0, ease := .linear, active := false }

/-- Embeds `FloatTween::startTween(from, to, startMs, durationMs, ease)`. -/
def FloatTween.startTween (fromValue toValue : ℚ) (startMs durationMs : ℕ)
    (easeFn : EaseKind) : FloatTween :=
  if 0 < durationMs ∧ SETTING_ANIM_EPSILON < |toValue - fromValue| then
    { fromV := fromValue, toV := toValue, start := startMs, duration := durationMs,
      ease := easeFn, active := true }
  else FloatTween.snapTo toValue

/-- Embeds `FloatTween::sample(nowMs)`: returns the updated tween (the source
mutates `this`, snapping on completion) together with the sampled value. -/
def FloatTween.sample (tw : FloatTween) (nowMs : ℕ) : FloatTween × ℚ :=
  if tw.active = false then (tw, tw.toV)
  else
    let elapsed := if tw.start ≤ nowMs then nowMs - tw.start else 0
    let t := if tw.duration = 0 then 1
             else clampf ((elapsed : ℚ) / (tw.duration : ℚ)) 0 1
    let eased := evalEase tw.ease t
    let value := lerpf tw.fromV tw.toV eased
    if 1 - SETTING_ANIM_EPSILON ≤ t ∨ tw.duration ≤ elapsed then
      (FloatTween.snapTo tw.toV, tw.toV)
    else (tw, value)

/-- Embeds `PomodoroState`.  Field union of the two revisions of the struct:
the src/src/pomodoro.h revision (blink animation fields) plus the
`settingTween` field of the tween revision that src/src/states.cpp,
src/src/render.cpp and src/src/input.cpp reference.  `uint8_t`/`uint32_t`
fields are `ℕ`, float fields are `ℚ`. -/
structure PomodoroState where
  mode : Mode := .SETTING
  optionIndex : ℕ := 0
  lastInputMs : ℕ := 0
  stateTs : ℕ := 0
  runStartMs : ℕ := 0
  runDurationMs : ℕ := 0
  pausedAtMs : ℕ := 0
  blinkOn : Bool := false
  blinkTs : ℕ := 0
  blinkDurationMs : ℕ := 0
  blinkFrameTs : ℕ := 0
  blinkLevel : ℚ := 0
  lastEncoderMs : ℕ := 0
  settingFracCurrent : ℚ := 0
  settingFracTarget : ℚ := 0
  centerDisplayUntilMs : ℕ := 0
  centerDisplayValue : ℕ := 0
  pendingTimeout : Bool := false
  settingTween : FloatTween := {}
deriving DecidableEq, Repr

/-- State with all the C++ member initializers of `PomodoroState`. -/
def defaultState : PomodoroState := {}

/-- Embeds `currentMinutes(st)` from src/unnamed/part_004 lines 3-5:
`OPTIONS[st.optionIndex % OPTION_COUNT]`; the modulus makes the array
access in bounds for every index value. -/
def currentMinutes (st : PomodoroState) : ℕ :=
  OPTIONS.get ⟨st.optionIndex % OPTION_COUNT, by simp [OPTIONS, OPTION_COUNT]; omega⟩

/-- Embeds `computeElapsedMs(st, now)` from src/unnamed/part_004 lines 7-10:
the explicit wraparound form `(now >= start) ? (now - start)
: (UINT32_MAX - start + 1U + now)`. -/
def computeElapsedMs (st : PomodoroState) (now : ℕ) : ℕ :=
  elapsedSince st.runStartMs now

/-- Embeds `computeElapsedMs(st, now)` from src/unnamed/part_003 lines 7-9:
the raw `uint32_t` subtraction `now - st.runStartMs`. -/
def computeElapsedMsRaw (st : PomodoroState) (now : ℕ) : ℕ :=
  u32sub now st.runStartMs

/-- Embeds `computeRemainingMs(st, now)` from src/unnamed/part_004 lines 16-22. -/
def computeRemainingMs (st : PomodoroState) (now : ℕ) : ℕ :=
  if st.runDurationMs = 0 then 0
  else
    let elapsed := computeElapsedMs st now
    if st.runDurationMs ≤ elapsed then 0 else st.runDurationMs - elapsed

/-! ## State entry functions (src/src/states.cpp, src/src/pomodoro.h) -/

/-- Embeds the inline `resetBlink(st, now)` of src/src/pomodoro.h for the
`PomodoroState` fields; the companion `gDisplay.animations.remove` call only
touches display state and is not part of `PomodoroState`. -/
def resetBlinkSt (st : PomodoroState) (now : ℕ) : PomodoroState :=
  { st with blinkTs := now, blinkOn := false, blinkDurationMs := 0,
            blinkFrameTs := now, blinkLevel := 0 }

/-- State effect of `renderAll(st, forceBg, now)` (src/src/render.cpp lines
74-139) on `PomodoroState`: only the SETTING branch writes back to the state
(`settingFracCurrent` from the sampled tween); every other branch only draws. -/
def renderAllState (st : PomodoroState) (now : ℕ) : PomodoroState :=
  match st.mode with
  | .SETTING =>
    let s := st.settingTween.sample now
    { st with settingTween := s.1, settingFracCurrent := clampf s.2 0 1 }
  | _ => st

/-- Embeds `enterSetting(st)` from src/src/states.cpp lines 3-36 with the
clock passed explicitly (`now = millis()`); includes the state effect of the
trailing `renderAll` (the `showCenterText` call does not touch the state). -/
def enterSetting (st : PomodoroState) (now : ℕ) : PomodoroState :=
  let wasSetting := st.mode = Mode.SETTING
  let st0 := if wasSetting then
      let s := st.settingTween.sample now
      { st with settingTween := s.1, settingFracCurrent := s.2 }
    else st
  let st1 := { st0 with mode := Mode.SETTING, stateTs := now, lastInputMs := now }
  let st2 := resetBlinkSt st1 now
  let minutes : ℚ := (currentMinutes st2 : ℚ)
  let seconds : ℚ := if minutes = 0 then 60 else minutes * 60
  let targetFrac := clampf (seconds / (60 * 60)) 0 1
  let st3 := { st2 with settingFracTarget := targetFrac }
  let st4 :=
    if ¬wasSetting then
      { st3 with settingFracCurrent := targetFrac,
                 settingTween := FloatTween.snapTo targetFrac }
    else if |targetFrac - st3.settingFracCurrent| ≤ SETTING_ANIM_EPSILON then
      { st3 with settingFracCurrent := targetFrac,
                 settingTween := FloatTween.snapTo targetFrac }
    else
      let tw := FloatTween.startTween st3.settingFracCurrent targetFrac now
        SETTING_ANIM_DURATION_MS EaseKind.easeOut
      { st3 with settingTween := tw }
  renderAllState st4 now

/-- Embeds `resumeRun(st)` from src/src/states.cpp lines 76-88 with the clock
passed explicitly; `renderAll` in RUNNING mode has no state effect. -/
def resumeRun (st : PomodoroState) (now : ℕ) : PomodoroState :=
  if st.mode ≠ Mode.PAUSED then st
  else
    let st1 := { st with runStartMs := u32add st.runStartMs (u32sub now st.pausedAtMs),
                         pausedAtMs := 0, mode := Mode.RUNNING, stateTs := now }
    resetBlinkSt st1 now

/-- Embeds `enterPaused(st)` from src/src/states.cpp lines 90-97 with the
clock passed explicitly; `renderAll` in PAUSED mode has no state effect. -/
def enterPaused (st : PomodoroState) (now : ℕ) : PomodoroState :=
  { st with mode := Mode.PAUSED, pausedAtMs := now, stateTs := now,
            blinkTs := now, blinkOn := true }

/-! ## Encoder input (src/src/input.cpp lines 3-30) -/

/-- Throttle predicate of `handleEncoderInput`:
`(st.lastEncoderMs == 0) || (now - st.lastEncoderMs >= ENCODER_THROTTLE_MS)`,
with the `uint32_t` subtraction embedded as `u32sub`. -/
def throttleExpired (st : PomodoroState) (now : ℕ) : Prop :=
  st.lastEncoderMs = 0 ∨ ENCODER_THROTTLE_MS ≤ u32sub now st.lastEncoderMs

instance (st : PomodoroState) (now : ℕ) : Decidable (throttleExpired st now) := by
  unfold throttleExpired; infer_instance

/-- Embeds `handleEncoderInput(st)` from src/src/input.cpp lines 3-30.
Inputs: the state, the accumulated step count read from `gEncoder.steps`
(an `int8_t`, embedded as `ℤ`) and the clock.  Returns the new state and
the new value of `gEncoder.steps` (this revision always zeroes it). -/
def handleEncoderInput (st : PomodoroState) (steps : ℤ) (now : ℕ) :
    PomodoroState × ℤ :=
  let steps2 := if throttleExpired st now then steps else 0
  if steps2 = 0 then (st, 0)
  else
    let st1 := { st with lastEncoderMs := now }
    let st2 :=
      if 0 < steps2 then
        { st1 with optionIndex := (st1.optionIndex + 1) % OPTION_COUNT }
      else
        { st1 with optionIndex := (st1.optionIndex + OPTION_COUNT - 1) % OPTION_COUNT }
    (enterSetting st2 now, 0)

/-! ## Animation engine (src/src/pomodoro.h lines 105-274) -/

/-- Store of animated float values.  The firmware drives animations through
raw `float*` pointers; here each driven value is identified by a key `ℕ` and
the pointed-to floats live in an environment `Env`.  A `float*` argument is
`Option ℕ` (`none` = null pointer). -/
def Env : Type := ℕ → ℚ

/-- Writes value `v` at key `k` (embeds `*target = v`). -/
def envSet (env : Env) (k : ℕ) (v : ℚ) : Env :=
  fun j => if j = k then v else env j

/-- Embeds `ValueAnimation` (src/src/pomodoro.h lines 105-180);
`from`/`to` renamed `fromV`/`toV`, the `EaseFn` pointer is an `EaseKind`. -/
structure ValueAnimation where
  target : Option ℕ := none
  fromV : ℚ := 0
  toV : ℚ := 0
  start : ℕ := 0
  duration : ℕ := 0
  ease : EaseKind := .linear
  active : Bool := false
deriving DecidableEq, Repr

/-- Embeds `ValueAnimation::reset()`. -/
def ValueAnimation.reset : ValueAnimation := {}

/-- Embeds `ValueAnimation::begin(valuePtr, from, to, startMs, durationMs,
ease)`: returns the written animation slot and the updated value store.
An inactive begin (zero duration or sub-epsilon delta) snaps the value to
`to` and resets the slot; an active begin writes `from`. -/
def ValueAnimation.begin (valuePtr : Option ℕ) (fromValue toValue : ℚ)
    (startMs durationMs : ℕ) (easeFn : EaseKind) (env : Env) :
    ValueAnimation × Env :=
  match valuePtr with
  | none => (ValueAnimation.reset, env)
  | some k =>
    let delta := |toValue - fromValue|
    if 0 < durationMs ∧ ANIMATION_EPSILON < delta then
      ({ target := some k, fromV := fromValue, toV := toValue, start := startMs,
         duration := durationMs, ease := easeFn, active := true },
       envSet env k fromValue)
    else (ValueAnimation.reset, envSet env k toValue)

/-- Embeds `ValueAnimation::update(nowMs)` (src/src/pomodoro.h lines
153-171): returns the updated slot and store; the source's `bool` result is
`true` exactly when the animation stays active, i.e. `(update ...).1.active`. -/
def ValueAnimation.update (a : ValueAnimation) (env : Env) (nowMs : ℕ) :
    ValueAnimation × Env :=
  match a.target with
  | none => (a, env)
  | some k =>
    if a.active = false then (a, env)
    else
      let elapsed := if a.start ≤ nowMs then nowMs - a.start else 0
      let t := if a.duration = 0 then 1
               else clampf ((elapsed : ℚ) / (a.duration : ℚ)) 0 1
      let eased := evalEase a.ease t
      let env1 := envSet env k (lerpf a.fromV a.toV eased)
      if a.duration ≤ elapsed ∨ 1 - ANIMATION_EPSILON ≤ t then
        (ValueAnimation.reset, envSet env1 k a.toV)
      else (a, env1)

/-- Embeds `ValueAnimation::matches(valuePtr)`. -/
def ValueAnimation.matchesKey (a : ValueAnimation) (k : ℕ) : Prop :=
  a.active = true ∧ a.target = some k

instance (a : ValueAnimation) (k : ℕ) : Decidable (a.matchesKey k) := by
  unfold ValueAnimation.matchesKey; infer_instance

/-- Folds `ValueAnimation::update` over a list of timestamps (the repeated
per-tick calls of the claim). -/
def runUpdates (s : ValueAnimation × Env) : List ℕ → ValueAnimation × Env
  | [] => s
  | t :: ts => runUpdates (ValueAnimation.update s.1 s.2 t) ts

/-- Embeds `ValueAnimationList::find(valuePtr)` (src/src/pomodoro.h lines
191-201) as the index of the first active item driving key `k`. -/
def listFind (items : List ValueAnimation) (k : ℕ) : Option ℕ :=
  items.findIdx? (fun a => decide (a.matchesKey k))

/-- Embeds `ValueAnimationList::allocate()` (src/src/pomodoro.h lines
203-210) as the index of the first inactive item. -/
def listAllocate (items : List ValueAnimation) : Option ℕ :=
  items.findIdx? (fun a => a.active = false)

/-- Embeds `ValueAnimationList::start(valuePtr, from, to, startMs,
durationMs, ease)` (src/src/pomodoro.h lines 212-235).  A found slot is
cancelled and then rewritten by `begin` (cancellation is subsumed by the
full overwrite); when no slot exists and the pool has no free item, the call
returns with the list and the value store untouched. -/
def listStart (items : List ValueAnimation) (env : Env) (valuePtr : Option ℕ)
    (fromValue toValue : ℚ) (startMs durationMs : ℕ) (easeFn : EaseKind) :
    List ValueAnimation × Env :=
  match valuePtr with
  | none => (items, env)
  | some k =>
    let slot := match listFind items k with
      | some i => some i
      | none => listAllocate items
    match slot with
    | none => (items, env)
    | some i =>
      let r := ValueAnimation.begin (some k) fromValue toValue startMs
        durationMs easeFn env
      (items.set i r.1, r.2)

/-! ## Dial renderer (src/src/render.cpp, src/unnamed/part_006)

The display is abstracted at the angular-band level the claims speak about:
a canvas maps a zone (the filled sector area of the dial, or the thin arc
band at its rim) and an angle in `[0, 360)` to a color.  Each draw helper
returns the list of emitted draw operations; replaying the list over a
canvas gives the resulting visual state.  The `step_deg` triangle
subdivision of `fillSector`/`fillArc` only affects sub-band rasterization
and is abstracted away, but their angle normalization is kept exactly:
both normalize the two endpoint angles and paint the swept range between
the normalized angles, so a requested sweep that is an exact multiple of
360 collapses to an empty sweep. -/

/-- Radial zone of the dial touched by a draw call: `sector` is the filled
wedge area (`fillSector`), `band` the rim arc band (`fillArc`). -/
inductive Zone where
  | sector
  | band
deriving DecidableEq, Repr

/-- Draw operations emitted by the dial renderer.  `seg` is a
`fillSector`/`fillArc` call covering one angular range of one zone;
`handLine` abstracts the `drawThickLine` pointer stroke at a dial angle;
`circle` is a `fillCircle` at pixel coordinates. -/
inductive RenderOp where
  | seg (zone : Zone) (a0 a1 : ℚ) (color : ℕ)
  | handLine (angleDeg : ℚ) (color : ℕ)
  | circle (x y : ℤ) (r : ℕ) (color : ℕ)
deriving DecidableEq, Repr

/-- Embeds the `norm` lambda of `fillSector`/`fillArc` and `normalizeAngle`
of src/src/render.cpp: reduce an angle into `[0, 360)`. -/
def qnorm (x : ℚ) : ℚ := x - 360 * (⌊x / 360⌋ : ℤ)

/-- Angular coverage of one `fillSector`/`fillArc` call with raw endpoint
angles `a0raw`, `a1raw`: both endpoints are normalized, the sweep is their
difference lifted into `[0, 360)`, and an angle is covered when its offset
from the start lies inside the sweep. -/
def fsCovered (a0raw a1raw a : ℚ) : Prop :=
  let a0 := qnorm a0raw
  let a1 := qnorm a1raw
  let sweep := if a1 - a0 < 0 then a1 - a0 + 360 else a1 - a0
  qnorm (a - a0) < sweep

instance (a0raw a1raw a : ℚ) : Decidable (fsCovered a0raw a1raw a) := by
  unfold fsCovered; infer_instance

/-- A canvas assigns a color to every zone and angle. -/
def Canvas : Type := Zone → ℚ → ℕ

/-- The all-background canvas the dial is drawn onto after the forced
`fillScreen` of `drawDialBackground`. -/
def bgCanvas : Canvas := fun _ _ => COL_BG

/-- Applies one draw operation to a canvas; operations other than `seg` do
not change band colors at this abstraction level. -/
def applyOp (c : Canvas) : RenderOp → Canvas
  | .seg z a0 a1 col => fun z2 a => if z2 = z ∧ fsCovered a0 a1 a then col else c z2 a
  | _ => c

/-- Replays a list of draw operations over a canvas, later operations
painting over earlier ones. -/
def runOps (c : Canvas) (ops : List RenderOp) : Canvas :=
  ops.foldl applyOp c

/-- Embeds `paintRingSegment(fromDeg, toDeg, fillColor, arcColor)` from
src/src/render.cpp lines 44-57: lift the sweep into `[0, 360]`, return
without drawing when it is at most `ANGLE_EPS`, otherwise emit the
`fillSector` and `fillArc` pair over `[start, start + sweep]`. -/
def paintRingSegment (fromDeg toDeg : ℚ) (fillColor arcColor : ℕ) :
    List RenderOp :=
  let sweep0 := toDeg - fromDeg
  let sweep := if sweep0 < 0 then sweep0 + 360 else sweep0
  if sweep ≤ ANGLE_EPS then []
  else
    let start := qnorm fromDeg
    let target := start + sweep
    [.seg .sector start target fillColor, .seg .band start target arcColor]

/-- Embeds `clearDialArea(bgColor)`: `paintRingSegment(0, 360, bg, bg)`. -/
def clearDialArea (bgColor : ℕ) : List RenderOp :=
  paintRingSegment 0 360 bgColor bgColor

/-- Embeds `hourScaledFraction(seconds) = clampf(seconds / (60 * 60.1), 0, 1)`. -/
def hourScaledFraction (seconds : ℚ) : ℚ :=
  clampf (seconds / (60 * (601 / 10))) 0 1

/-- Embeds `DisplayDialCache` (src/src/pomodoro.h lines 297-310). -/
structure DialCache where
  wedgeValid : Bool := false
  wedgeEndDeg : ℚ := 0
  prevWedgeEndDeg : ℚ := 0
  wedgeColor : ℕ := COL_BG
  pointerValid : Bool := false
  pointerAngleDeg : ℚ := 0
  blinkVisible : Bool := false
  blinkAngleDeg : ℚ := 0
  blinkX : ℤ := 0
  blinkY : ℤ := 0
deriving DecidableEq, Repr

/-- Embeds the cached `drawRemainingWedge(remainingSec, totalSec, paused,
bgColor)` of src/src/render.cpp lines 147-176: returns the updated cache
and the emitted draw operations. -/
def drawRemainingWedge (cache : DialCache) (remainingSec totalSec : ℚ)
    (paused : Bool) (bgColor : ℕ) : DialCache × List RenderOp :=
  if totalSec ≤ 0 then (cache, [])
  else
    let cache1 := { cache with prevWedgeEndDeg := cache.wedgeEndDeg }
    let frac := hourScaledFraction remainingSec
    let newEnd := 360 * frac
    let color := if paused then COL_LIGHTRED else COL_RED
    let colorChanged := cache1.wedgeValid = false ∨ cache1.wedgeColor ≠ color
    let ops :=
      if cache1.wedgeValid = false ∨ colorChanged then
        clearDialArea bgColor ++
          (if ANGLE_EPS < newEnd then paintRingSegment 0 newEnd color COL_RED_DARK
           else [])
      else if newEnd + ANGLE_EPS < cache1.wedgeEndDeg then
        paintRingSegment newEnd cache1.wedgeEndDeg bgColor bgColor
      else if cache1.wedgeEndDeg + ANGLE_EPS < newEnd then
        paintRingSegment cache1.wedgeEndDeg newEnd color COL_RED_DARK
      else []
    ({ cache1 with wedgeValid := true, wedgeEndDeg := newEnd, wedgeColor := color },
     ops)

/-- Embeds the uncached full-repaint `drawRemainingWedge(remainingSec,
totalSec, paused)` of src/unnamed/part_006 lines 63-82: clear the whole
ring to `COL_BG`, then paint the wedge sector and its shadow arc directly
with `fillSector`/`fillArc`. -/
def drawRemainingWedgeFull (remainingSec totalSec : ℚ) (paused : Bool) :
    List RenderOp :=
  if totalSec ≤ 0 then []
  else
    let frac := clampf (remainingSec / (60 * (601 / 10))) 0 1
    let sweep := 360 * frac
    let startDeg : ℚ := 0
    let endDeg := startDeg + sweep
    let col := if paused then COL_LIGHTRED else COL_RED
    [.seg .sector 0 360 COL_BG, .seg .band 0 360 COL_BG,
     .seg .sector startDeg endDeg col, .seg .band startDeg endDeg COL_RED_DARK]

/-- Replays a sequence of remaining-time values through the cached
`drawRemainingWedge` with a fixed total, pause flag and background,
accumulating the emitted operations. -/
def runWedgeSeq (cache : DialCache) (totalSec : ℚ) (paused : Bool)
    (bgColor : ℕ) : List ℚ → DialCache × List RenderOp
  | [] => (cache, [])
  | r :: rs =>
    let d := drawRemainingWedge cache r totalSec paused bgColor
    let rest := runWedgeSeq d.1 totalSec paused bgColor rs
    (rest.1, d.2 ++ rest.2)

/-- Embeds `drawMinuteHand(remainingSec, totalSec, bgColor, pointerColor,
hubColor)` of src/src/render.cpp lines 178-205.  The pointer stroke and hub
are abstract operations; the restore pass and the leading gap sector are
exact angular paints. -/
def drawMinuteHand (cache : DialCache) (remainingSec totalSec : ℚ)
    (bgColor pointerColor hubColor : ℕ) : DialCache × List RenderOp :=
  if totalSec ≤ 0 then (cache, [])
  else
    let frac := hourScaledFraction remainingSec
    let angle := 360 * frac
    let restoreOps :=
      if cache.pointerValid then
        let start := cache.pointerAngleDeg - POINTER_RESTORE_SPAN
        if cache.wedgeEndDeg + ANGLE_EPS < cache.prevWedgeEndDeg then
          paintRingSegment start cache.pointerAngleDeg bgColor bgColor
        else
          paintRingSegment start cache.pointerAngleDeg cache.wedgeColor COL_RED_DARK
      else []
    let ops := restoreOps ++
      [RenderOp.handLine (angle - 1) pointerColor,
       RenderOp.seg .sector angle (angle + 10) bgColor,
       RenderOp.circle 120 120 6 hubColor]
    ({ cache with pointerValid := true, pointerAngleDeg := angle }, ops)

/-- Embeds `drawBlinkingTip(remainingSec, totalSec, on, bgColor)` of
src/src/render.cpp lines 233-271.  `proj` abstracts the
`cos`/`sin`/`lrintf` mapping of the raw angle to pixel coordinates at
radius `R_OUT - 2` (not representable over `ℚ`). -/
def drawBlinkingTip (proj : ℚ → ℤ × ℤ) (cache : DialCache)
    (remainingSec totalSec : ℚ) (isOn : Bool) (bgColor : ℕ) :
    DialCache × List RenderOp :=
  let clearOps :=
    if cache.blinkVisible then
      let base := if cache.blinkAngleDeg ≤ cache.wedgeEndDeg + ANGLE_EPS
                  then cache.wedgeColor else bgColor
      [RenderOp.circle cache.blinkX cache.blinkY 5 base]
    else []
  if isOn = false ∨ totalSec ≤ 0 then
    ({ cache with blinkVisible := false }, clearOps)
  else
    let frac := clampf (remainingSec / totalSec) 0 1
    let rawAngle := 270 + 360 * frac
    let screenAngle := qnorm (rawAngle - 270)
    if cache.blinkVisible = true ∧ |screenAngle - cache.blinkAngleDeg| ≤ ANGLE_EPS then
      (cache, [])
    else
      let p := proj rawAngle
      ({ cache with blinkVisible := true, blinkX := p.1, blinkY := p.2,
                    blinkAngleDeg := screenAngle },
       clearOps ++ [RenderOp.circle p.1 p.2 5 COL_LIGHTRED])

/-! ## Derived sequence helpers and concrete instances -/

/-- Timestamps `f 0, f 1, ..., f k` fed to repeated `update` calls. -/
def timesUpTo (f : ℕ → ℕ) (k : ℕ) : List ℕ :=
  (List.range (k + 1)).map f

/-- Dial end angle painted for a remaining-seconds value:
`360 * hourScaledFraction r`. -/
def wedgeEnd (r : ℚ) : ℚ := 360 * hourScaledFraction r

/-- Step condition under which the incremental wedge repaint actually
repaints: the new end angle is unchanged or moves by more than `ANGLE_EPS`. -/
def stepOK (e e2 : ℚ) : Prop := e2 = e ∨ ANGLE_EPS < |e2 - e|

/-- Visual state of a dial whose wedge ends at angle `e` over background
`bg`: wedge color on the sector zone and shadow color on the band zone for
angles below `e`, background elsewhere. -/
def wedgeCanvas (col arcCol bg : ℕ) (e : ℚ) : Canvas :=
  fun z a => if a < e then (match z with | .sector => col | .band => arcCol) else bg

/-- A fixed screen projection used to instantiate the abstracted
angle-to-pixel mapping in concrete counterexamples. -/
def projZero : ℚ → ℤ × ℤ := fun _ => (0, 0)

/-- The slot produced by an active `ValueAnimation::begin` for key `key`. -/
def mkAnim (key : ℕ) (fv tv : ℚ) (sm dur : ℕ) (kind : EaseKind) : ValueAnimation :=
  { target := some key, fromV := fv, toV := tv, start := sm, duration := dur,
    ease := kind, active := true }

/-- Wedge fill color chosen by `drawRemainingWedge` for a pause flag. -/
def wcol (paused : Bool) : ℕ := if paused then COL_LIGHTRED else COL_RED

/-- Elapsed-time expression of `ValueAnimation::update`. -/
def animElapsed (sm tnow : ℕ) : ℕ := if sm ≤ tnow then tnow - sm else 0

/-- Normalized progress expression of `ValueAnimation::update`. -/
def animT (sm dur tnow : ℕ) : ℚ :=
  if dur = 0 then 1 else clampf ((animElapsed sm tnow : ℚ) / (dur : ℚ)) 0 1

/-- Last element of `e :: l` (the final wedge end angle of a replay). -/
def lastD (e : ℚ) (l : List ℚ) : ℚ := l.foldl (fun _ x => x) e

/-- An active pool entry driving key `k`, used to build a full pool. -/
def activeAnim (k : ℕ) : ValueAnimation :=
  { target := some k, fromV := 0, toV := 1, start := 0, duration := 1000,
    ease := .linear, active := true }

/-- A pool of `MAX_VALUE_ANIMATIONS = 6` entries, all active for keys 1-6. -/
def fullPool : List ValueAnimation :=
  [activeAnim 1, activeAnim 2, activeAnim 3, activeAnim 4, activeAnim 5, activeAnim 6]

/-- A value store holding 5 at every key. -/
def envFive : Env := fun _ => 5

/-- A paused state with `pausedAtMs = 100` and the blink flag off. -/
def pausedState100 : PomodoroState :=
  { defaultState with mode := Mode.PAUSED, pausedAtMs := 100, blinkOn := false }

/-- A running 60-second session started at time 0. -/
def runningState60s : PomodoroState :=
  { defaultState with mode := Mode.RUNNING, runStartMs := 0, runDurationMs := 60000 }

/-- A dial cache whose wedge is painted up to 50 degrees (unchanged since
the previous frame) with the pointer previously drawn at 100 degrees. -/
def handCache : DialCache :=
  { wedgeValid := true, wedgeEndDeg := 50, prevWedgeEndDeg := 50,
    wedgeColor := COL_RED, pointerValid := true, pointerAngleDeg := 100 }

/-- A dial cache like `handCache` but whose cached pointer angle equals the
previous wedge end angle, as maintained by `renderAll`. -/
def handCacheEq : DialCache :=
  { wedgeValid := true, wedgeEndDeg := 50, prevWedgeEndDeg := 50,
    wedgeColor := COL_RED, pointerValid := true, pointerAngleDeg := 50 }

/-- A dial cache with a currently visible blink dot. -/
def tipCache : DialCache :=
  { wedgeValid := true, wedgeEndDeg := 50, prevWedgeEndDeg := 50,
    wedgeColor := COL_RED, blinkVisible := true, blinkAngleDeg := 120,
    blinkX := 3, blinkY := 4 }

/-! ## General helper lemmas -/

theorem clampf_mem {a b : ℚ} (v : ℚ) (h : a ≤ b) :
    a ≤ clampf v a b ∧ clampf v a b ≤ b := by
  unfold clampf; split_ifs <;> constructor <;> linarith

theorem lerpf_mem {a b e : ℚ} (h0 : 0 ≤ e) (h1 : e ≤ 1) :
    min a b ≤ lerpf a b e ∧ lerpf a b e ≤ max a b := by
  unfold lerpf
  rcases le_total a b with hab | hba
  · rw [min_eq_left hab, max_eq_right hab]
    constructor <;> nlinarith
  · rw [min_eq_right hba, max_eq_left hba]
    constructor <;> nlinarith

theorem cubicBezierEase_mem (x0 x1 y1 x2 y2 : ℚ) :
    0 ≤ cubicBezierEase x0 x1 y1 x2 y2 ∧ cubicBezierEase x0 x1 y1 x2 y2 ≤ 1 := by
  unfold cubicBezierEase
  exact clampf_mem _ (by norm_num)

theorem evalEase_mem (k : EaseKind) (t : ℚ) :
    0 ≤ evalEase k t ∧ evalEase k t ≤ 1 := by
  cases k
  · exact clampf_mem _ (by norm_num)
  · exact cubicBezierEase_mem _ _ _ _ _
  · exact cubicBezierEase_mem _ _ _ _ _
  · exact cubicBezierEase_mem _ _ _ _ _

/-! ## C1: wraparound-safe elapsed time -/

/-- C1: for all 32-bit values `reference` and `now` (including the wrapped
case `now < reference`), `elapsedSince` — and both revisions of
`computeElapsedMs` applied to `runStartMs` — return the elapsed duration
`(now - reference) mod 2^32`: `now - reference` when `now ≥ reference`,
and `(UINT32_MAX - reference) + 1 + now` otherwise. -/
theorem claim_C1 (r n : ℕ) (hr : r < U32) (hn : n < U32) :
    elapsedSince r n = (n + U32 - r) % U32
    ∧ (r ≤ n → elapsedSince r n = n - r)
    ∧ (n < r → elapsedSince r n = (UINT32_MAX - r) + 1 + n)
    ∧ ∀ st : PomodoroState, st.runStartMs = r →
        computeElapsedMs st n = elapsedSince r n
        ∧ computeElapsedMsRaw st n = elapsedSince r n := by
  have hU : U32 = 4294967296 := by norm_num [U32]
  rw [hU] at hr hn
  refine ⟨?_, ?_, ?_, ?_⟩
  · unfold elapsedSince UINT32_MAX
    rw [hU]
    split_ifs <;> omega
  · intro h; unfold elapsedSince; rw [if_pos h]
  · intro h; unfold elapsedSince; rw [if_neg (by omega)]
  · intro st hst
    refine ⟨by rw [computeElapsedMs, hst], ?_⟩
    unfold computeElapsedMsRaw u32sub elapsedSince UINT32_MAX
    rw [hst, hU]
    split_ifs <;> omega

/-- Witness for C1 at a concrete wrapped pair: the counter wrapped from
`4294967290` to `5`, giving an elapsed time of 11 ms. -/
theorem claim_C1_witness :
    (4294967290 : ℕ) < U32 ∧ (5 : ℕ) < U32 ∧ elapsedSince 4294967290 5 = 11 := by
  have h := claim_C1 4294967290 5 (by norm_num [U32]) (by norm_num [U32])
  refine ⟨by norm_num [U32], by norm_num [U32], ?_⟩
  rw [h.2.2.1 (by norm_num)]
  norm_num [UINT32_MAX, U32]

/-! ## C2: remaining time bounded by the configured duration -/

/-- C2: for every state and timestamp, `computeRemainingMs` is between 0
and `runDurationMs` (0 is automatic over `ℕ`): it returns 0 when the
duration is 0, returns 0 when the elapsed time reaches the duration, and
otherwise returns duration minus elapsed. -/
theorem claim_C2 (st : PomodoroState) (now : ℕ) :
    computeRemainingMs st now ≤ st.runDurationMs
    ∧ (st.runDurationMs = 0 → computeRemainingMs st now = 0)
    ∧ (st.runDurationMs ≤ computeElapsedMs st now → computeRemainingMs st now = 0)
    ∧ (computeElapsedMs st now < st.runDurationMs →
        computeRemainingMs st now = st.runDurationMs - computeElapsedMs st now) := by
  have hrw : computeRemainingMs st now =
      if st.runDurationMs = 0 then 0
      else if st.runDurationMs ≤ computeElapsedMs st now then 0
      else st.runDurationMs - computeElapsedMs st now := rfl
  simp only [hrw]
  split_ifs with h1 h2 <;>
    exact ⟨by omega, fun h => by omega, fun h => by omega, fun h => by omega⟩

/-! ## C3: pausing excludes the paused interval -/

/-- C3: pausing at `p` and resuming at `r` shifts `runStartMs` forward by
`r - p`, and the remaining time at any later `now` is the configured
duration minus the accumulated active time `(p - start) + (now - r)` only
(`ℕ` subtraction floors at 0, matching the code's clamp). -/
theorem claim_C3 (st : PomodoroState) (p r now : ℕ)
    (hsp : st.runStartMs ≤ p) (hpr : p ≤ r) (hrn : r ≤ now)
    (_hnow : now < U32) (hshift : st.runStartMs + (r - p) < U32) :
    (resumeRun (enterPaused st p) r).runStartMs = st.runStartMs + (r - p)
    ∧ (resumeRun (enterPaused st p) r).pausedAtMs = 0
    ∧ (resumeRun (enterPaused st p) r).mode = Mode.RUNNING
    ∧ (resumeRun (enterPaused st p) r).runDurationMs = st.runDurationMs
    ∧ computeRemainingMs (resumeRun (enterPaused st p) r) now
        = st.runDurationMs - ((p - st.runStartMs) + (now - r)) := by
  have hU : U32 = 4294967296 := by norm_num [U32]
  rw [hU] at _hnow hshift
  have hstart : (resumeRun (enterPaused st p) r).runStartMs
      = st.runStartMs + (r - p) := by
    simp only [resumeRun, enterPaused, resetBlinkSt, u32add, u32sub, hU]
    norm_num
    omega
  have hdur : (resumeRun (enterPaused st p) r).runDurationMs
      = st.runDurationMs := by
    simp [resumeRun, enterPaused, resetBlinkSt]
  refine ⟨hstart, ?_, ?_, hdur, ?_⟩
  · simp [resumeRun, enterPaused, resetBlinkSt]
  · simp [resumeRun, enterPaused, resetBlinkSt]
  · have helapsed : computeElapsedMs (resumeRun (enterPaused st p) r) now
        = (p - st.runStartMs) + (now - r) := by
      unfold computeElapsedMs
      rw [hstart]
      unfold elapsedSince
      rw [if_pos (by omega)]
      omega
    have hrw : computeRemainingMs (resumeRun (enterPaused st p) r) now =
        if (resumeRun (enterPaused st p) r).runDurationMs = 0 then 0
        else if (resumeRun (enterPaused st p) r).runDurationMs
            ≤ computeElapsedMs (resumeRun (enterPaused st p) r) now then 0
        else (resumeRun (enterPaused st p) r).runDurationMs
            - computeElapsedMs (resumeRun (enterPaused st p) r) now := rfl
    simp only [hrw, helapsed, hdur]
    split_ifs <;> omega

/-- Witness for C3: the spec's scenario.  A 60000 ms session started at 0
has 30000 ms remaining at 30000; paused at 30000, resumed at 35000, it has
0 ms remaining at 65000 — the 5000 ms paused interval is excluded. -/
theorem claim_C3_witness :
    computeRemainingMs runningState60s 30000 = 30000
    ∧ computeRemainingMs (resumeRun (enterPaused runningState60s 30000) 35000) 65000 = 0 := by
  constructor
  · decide
  · have h := claim_C3 runningState60s 30000 35000 65000 (by decide) (by decide)
      (by decide) (by norm_num [U32]) (by norm_num [U32, runningState60s, defaultState])
    rw [h.2.2.2.2]
    decide

/-! ## C4: idempotence of pause/resume entry functions -/

/-- Counterexample to C4: `enterPaused` has no already-paused guard.
Called on a state already in PAUSED mode (paused at 100) with the clock at
200, it re-stamps `pausedAtMs` and flips `blinkOn`, so the state changes. -/
theorem claim_C4_counterexample :
    pausedState100.mode = Mode.PAUSED
    ∧ enterPaused pausedState100 200 ≠ pausedState100 := by
  refine ⟨rfl, ?_⟩
  intro h
  have h2 : (enterPaused pausedState100 200).pausedAtMs = pausedState100.pausedAtMs := by
    rw [h]
  simp [enterPaused, pausedState100, defaultState] at h2

/-- C4 amended: `resumeRun` while not PAUSED leaves the state unchanged
(as claimed), but `enterPaused` is unguarded: it unconditionally re-enters
the paused state, re-stamping `pausedAtMs`, `stateTs`, `blinkTs` and
setting `blinkOn`, so calling it while already PAUSED changes the state
whenever the clock moved or the blink flag was off. -/
theorem claim_C4_amended :
    (∀ (st : PomodoroState) (now : ℕ), st.mode ≠ Mode.PAUSED → resumeRun st now = st)
    ∧ (∀ (st : PomodoroState) (now : ℕ), enterPaused st now =
        { st with mode := Mode.PAUSED, pausedAtMs := now, stateTs := now,
                  blinkTs := now, blinkOn := true }) := by
  constructor
  · intro st now h
    simp [resumeRun, h]
  · intro st now
    rfl

/-- Witness for C4 amended: resuming the default (SETTING) state is a no-op. -/
theorem claim_C4_witness :
    defaultState.mode ≠ Mode.PAUSED ∧ resumeRun defaultState 5 = defaultState :=
  ⟨by decide, claim_C4_amended.1 defaultState 5 (by decide)⟩

/-! ## C10: encoder input keeps the option index in range -/

theorem renderAllState_optionIndex (st : PomodoroState) (now : ℕ) :
    (renderAllState st now).optionIndex = st.optionIndex := by
  unfold renderAllState
  cases h : st.mode <;> simp

theorem enterSetting_optionIndex (st : PomodoroState) (now : ℕ) :
    (enterSetting st now).optionIndex = st.optionIndex := by
  unfold enterSetting
  rw [renderAllState_optionIndex]
  split_ifs <;> rfl

/-- C10: `handleEncoderInput` preserves `optionIndex < OPTION_COUNT`; an
event is accepted only when the throttle window expired and the coalesced
step count is nonzero, and an accepted event moves `optionIndex` exactly
one cyclic position in the direction of the sign of the steps, whatever
their magnitude; `currentMinutes` always reads an element of `OPTIONS`. -/
theorem claim_C10 (st : PomodoroState) (steps : ℤ) (now : ℕ)
    (hidx : st.optionIndex < OPTION_COUNT) :
    (handleEncoderInput st steps now).1.optionIndex < OPTION_COUNT
    ∧ (¬ throttleExpired st now ∨ steps = 0 → (handleEncoderInput st steps now).1 = st)
    ∧ (throttleExpired st now → steps ≠ 0 →
        (handleEncoderInput st steps now).1.optionIndex =
          if 0 < steps then (st.optionIndex + 1) % OPTION_COUNT
          else (st.optionIndex + OPTION_COUNT - 1) % OPTION_COUNT)
    ∧ ∀ st2 : PomodoroState, currentMinutes st2 ∈ OPTIONS := by
  have hmem : ∀ st2 : PomodoroState, currentMinutes st2 ∈ OPTIONS := by
    intro st2
    exact List.get_mem _ _ _
  by_cases hth : throttleExpired st now
  · by_cases hz : steps = 0
    · subst hz
      have hrw0 : (handleEncoderInput st 0 now).1 = st := by
        simp [handleEncoderInput, hth]
      exact ⟨by rw [hrw0]; exact hidx, fun _ => hrw0,
        fun _ h => absurd rfl h, hmem⟩
    · have hrw : (handleEncoderInput st steps now).1 =
          enterSetting
            (if 0 < steps then
              { st with lastEncoderMs := now,
                        optionIndex := (st.optionIndex + 1) % OPTION_COUNT }
             else
              { st with lastEncoderMs := now,
                        optionIndex := (st.optionIndex + OPTION_COUNT - 1) % OPTION_COUNT })
            now := by
        simp only [handleEncoderInput, if_pos hth, if_neg hz]
      refine ⟨?_, ?_, ?_, hmem⟩
      · rw [hrw]
        split_ifs <;>
          · rw [enterSetting_optionIndex]
            simp only [OPTION_COUNT]
            omega
      · intro h
        rcases h with h | h
        · exact absurd hth h
        · exact absurd h hz
      · intro _ _
        rw [hrw]
        split_ifs with hpos <;> rw [enterSetting_optionIndex]
  · refine ⟨?_, ?_, ?_, hmem⟩
    · simp [handleEncoderInput, hth, hidx]
    · intro _
      simp [handleEncoderInput, hth]
    · intro h
      exact absurd h hth

/-- Witness for C10: with the throttle idle (`lastEncoderMs = 0`) and one
coalesced step, the default state keeps its index in range. -/
theorem claim_C10_witness :
    defaultState.optionIndex < OPTION_COUNT
    ∧ (handleEncoderInput defaultState 1 0).1.optionIndex < OPTION_COUNT :=
  ⟨by decide, (claim_C10 defaultState 1 0 (by decide)).1⟩

/-! ## C5: animation convergence without overshoot -/

theorem envSet_same (env : Env) (k : ℕ) (v : ℚ) : envSet env k v k = v := by
  simp [envSet]

theorem runUpdates_append (s : ValueAnimation × Env) (l1 l2 : List ℕ) :
    runUpdates s (l1 ++ l2) = runUpdates (runUpdates s l1) l2 := by
  induction l1 generalizing s with
  | nil => rfl
  | cons t ts ih => simp only [List.cons_append, runUpdates]; exact ih _

theorem anim_update_unchanged (s : ValueAnimation × Env) (tnow : ℕ)
    (hact : s.1.active = false) :
    ValueAnimation.update s.1 s.2 tnow = (s.1, s.2) := by
  unfold ValueAnimation.update
  cases htg : s.1.target with
  | none => rfl
  | some k => simp [hact]

theorem anim_update_active (key : ℕ) (fv tv : ℚ) (sm dur : ℕ) (kind : EaseKind)
    (env : Env) (tnow : ℕ) :
    ValueAnimation.update (mkAnim key fv tv sm dur kind) env tnow
      = if dur ≤ animElapsed sm tnow
            ∨ 1 - ANIMATION_EPSILON ≤ animT sm dur tnow
        then (ValueAnimation.reset,
              envSet (envSet env key (lerpf fv tv (evalEase kind (animT sm dur tnow))))
                key tv)
        else (mkAnim key fv tv sm dur kind,
              envSet env key (lerpf fv tv (evalEase kind (animT sm dur tnow)))) := rfl

theorem anim_update_inv (key : ℕ) (fv tv : ℚ) (sm dur : ℕ) (kind : EaseKind)
    (s : ValueAnimation × Env) (tnow : ℕ)
    (hs : s.1 = mkAnim key fv tv sm dur kind
          ∨ (s.1.active = false ∧ s.2 key = tv))
    (henv : min fv tv ≤ s.2 key ∧ s.2 key ≤ max fv tv) :
    ((ValueAnimation.update s.1 s.2 tnow).1 = mkAnim key fv tv sm dur kind
      ∨ ((ValueAnimation.update s.1 s.2 tnow).1.active = false
          ∧ (ValueAnimation.update s.1 s.2 tnow).2 key = tv))
    ∧ min fv tv ≤ (ValueAnimation.update s.1 s.2 tnow).2 key
    ∧ (ValueAnimation.update s.1 s.2 tnow).2 key ≤ max fv tv := by
  rcases hs with h | ⟨hact, henvk⟩
  · rw [h, anim_update_active]
    split_ifs with hdone
    · refine ⟨Or.inr ⟨rfl, envSet_same _ _ _⟩, ?_, ?_⟩
      · show fv ⊓ tv ≤ envSet _ key tv key
        rw [envSet_same]
        exact min_le_right _ _
      · show envSet _ key tv key ≤ fv ⊔ tv
        rw [envSet_same]
        exact le_max_right _ _
    · refine ⟨Or.inl rfl, ?_, ?_⟩
      · show fv ⊓ tv ≤ envSet _ key (lerpf fv tv (evalEase kind (animT sm dur tnow))) key
        rw [envSet_same]
        exact (lerpf_mem (evalEase_mem kind _).1 (evalEase_mem kind _).2).1
      · show envSet _ key (lerpf fv tv (evalEase kind (animT sm dur tnow))) key ≤ fv ⊔ tv
        rw [envSet_same]
        exact (lerpf_mem (evalEase_mem kind _).1 (evalEase_mem kind _).2).2
  · rw [anim_update_unchanged s tnow hact]
    exact ⟨Or.inr ⟨hact, henvk⟩, henv⟩

theorem anim_update_complete (key : ℕ) (fv tv : ℚ) (sm dur : ℕ) (kind : EaseKind)
    (s : ValueAnimation × Env) (tnow : ℕ)
    (hs : s.1 = mkAnim key fv tv sm dur kind
          ∨ (s.1.active = false ∧ s.2 key = tv))
    (ht : sm + dur ≤ tnow) :
    (ValueAnimation.update s.1 s.2 tnow).1.active = false
    ∧ (ValueAnimation.update s.1 s.2 tnow).2 key = tv := by
  rcases hs with h | ⟨hact, henvk⟩
  · rw [h, anim_update_active]
    rw [if_pos (Or.inl (by unfold animElapsed; rw [if_pos (by omega)]; omega))]
    exact ⟨rfl, envSet_same _ _ _⟩
  · rw [anim_update_unchanged s tnow hact]
    exact ⟨hact, henvk⟩

theorem runUpdates_inv (key : ℕ) (fv tv : ℚ) (sm dur : ℕ) (kind : EaseKind)
    (ts : List ℕ) (s : ValueAnimation × Env)
    (hs : s.1 = mkAnim key fv tv sm dur kind
          ∨ (s.1.active = false ∧ s.2 key = tv))
    (henv : min fv tv ≤ s.2 key ∧ s.2 key ≤ max fv tv) :
    ((runUpdates s ts).1 = mkAnim key fv tv sm dur kind
      ∨ ((runUpdates s ts).1.active = false ∧ (runUpdates s ts).2 key = tv))
    ∧ min fv tv ≤ (runUpdates s ts).2 key
    ∧ (runUpdates s ts).2 key ≤ max fv tv := by
  induction ts generalizing s with
  | nil => exact ⟨hs, henv⟩
  | cons t ts ih =>
    have step := anim_update_inv key fv tv sm dur kind s t hs henv
    exact ih _ step.1 step.2

theorem begin_active (key : ℕ) (env : Env) (fv tv : ℚ) (sm dur : ℕ)
    (kind : EaseKind) (hdur : 0 < dur) (hdelta : ANIMATION_EPSILON < |tv - fv|) :
    ValueAnimation.begin (some key) fv tv sm dur kind env
      = (mkAnim key fv tv sm dur kind, envSet env key fv) := by
  unfold ValueAnimation.begin mkAnim
  simp only
  rw [if_pos ⟨hdur, hdelta⟩]

/-- C5: an animation entry begun with positive duration, a beyond-epsilon
delta and one of the provided easings converges: the initial write and
every value the repeated `update` calls leave at the driven key stay inside
`[min from to, max from to]`, and along any strictly increasing timestamp
sequence some update eventually writes exactly `to` and frees the entry. -/
theorem claim_C5 (key : ℕ) (env : Env) (fv tv : ℚ) (sm dur : ℕ)
    (kind : EaseKind) (f : ℕ → ℕ) (hdur : 0 < dur)
    (hdelta : ANIMATION_EPSILON < |tv - fv|) (hmono : StrictMono f) :
    (min fv tv ≤ (ValueAnimation.begin (some key) fv tv sm dur kind env).2 key
      ∧ (ValueAnimation.begin (some key) fv tv sm dur kind env).2 key ≤ max fv tv)
    ∧ (∀ k : ℕ,
        min fv tv ≤ (runUpdates (ValueAnimation.begin (some key) fv tv sm dur kind env)
            (timesUpTo f k)).2 key
        ∧ (runUpdates (ValueAnimation.begin (some key) fv tv sm dur kind env)
            (timesUpTo f k)).2 key ≤ max fv tv)
    ∧ ∃ k : ℕ,
        (runUpdates (ValueAnimation.begin (some key) fv tv sm dur kind env)
          (timesUpTo f k)).1.active = false
        ∧ (runUpdates (ValueAnimation.begin (some key) fv tv sm dur kind env)
            (timesUpTo f k)).2 key = tv := by
  have hs0 := begin_active key env fv tv sm dur kind hdur hdelta
  have hleft : (ValueAnimation.begin (some key) fv tv sm dur kind env).1
      = mkAnim key fv tv sm dur kind := by rw [hs0]
  have henv0 : min fv tv ≤ (ValueAnimation.begin (some key) fv tv sm dur kind env).2 key
      ∧ (ValueAnimation.begin (some key) fv tv sm dur kind env).2 key ≤ max fv tv := by
    rw [hs0]
    show min fv tv ≤ envSet env key fv key ∧ envSet env key fv key ≤ max fv tv
    rw [envSet_same]
    exact ⟨min_le_left _ _, le_max_left _ _⟩
  refine ⟨henv0, ?_, ?_⟩
  · intro k
    exact (runUpdates_inv key fv tv sm dur kind _ _ (Or.inl hleft) henv0).2
  · refine ⟨sm + dur, ?_⟩
    have hsplit : timesUpTo f (sm + dur)
        = (List.range (sm + dur)).map f ++ [f (sm + dur)] := by
      unfold timesUpTo
      rw [List.range_succ, List.map_append]
      rfl
    rw [hsplit, runUpdates_append]
    have hinv := runUpdates_inv key fv tv sm dur kind ((List.range (sm + dur)).map f)
      (ValueAnimation.begin (some key) fv tv sm dur kind env) (Or.inl hleft) henv0
    exact anim_update_complete key fv tv sm dur kind _ (f (sm + dur)) hinv.1
      hmono.le_apply

/-- Witness for C5: a linear animation of key 0 from 0 to 1 over 1 ms along
the identity timestamp sequence converges to exactly 1 and frees its entry. -/
theorem claim_C5_witness :
    ∃ k : ℕ,
      (runUpdates (ValueAnimation.begin (some 0) 0 1 0 1 EaseKind.linear envFive)
        (timesUpTo id k)).1.active = false
      ∧ (runUpdates (ValueAnimation.begin (some 0) 0 1 0 1 EaseKind.linear envFive)
          (timesUpTo id k)).2 0 = 1 :=
  (claim_C5 0 envFive 0 1 0 1 EaseKind.linear id (by norm_num)
    (by norm_num [ANIMATION_EPSILON]) strictMono_id).2.2

/-! ## C6: pool exhaustion makes `start` a no-op -/

/-- Counterexample to C6: with all 6 pool slots active for keys 1-6 and
every stored value at 5, starting an animation for the fresh key 0 toward
`to = 7` leaves the pool and the value untouched — the target does NOT
snap to `to`. -/
theorem claim_C6_counterexample :
    (listStart fullPool envFive (some 0) 0 7 0 100 EaseKind.linear).1 = fullPool
    ∧ (listStart fullPool envFive (some 0) 0 7 0 100 EaseKind.linear).2 0 = 5
    ∧ (5 : ℚ) ≠ 7 := by
  refine ⟨?_, ?_, by norm_num⟩
  · rfl
  · rfl

/-- C6 amended: if every pool slot is active for a target other than the
requested key, `ValueAnimationList::start` returns with the pool and the
value store unchanged — a silent no-op that neither creates an entry nor
writes the target value (in particular the value does not snap to `to`). -/
theorem claim_C6_amended (items : List ValueAnimation) (env : Env) (k : ℕ)
    (fv tv : ℚ) (sm dur : ℕ) (kind : EaseKind)
    (hfull : ∀ a ∈ items, a.active = true ∧ a.target ≠ some k) :
    listStart items env (some k) fv tv sm dur kind = (items, env) := by
  have hfind : listFind items k = none := by
    unfold listFind
    rw [List.findIdx?_eq_none_iff]
    intro a ha
    simp only [decide_eq_false_iff_not]
    intro hm
    exact (hfull a ha).2 hm.2
  have halloc : listAllocate items = none := by
    unfold listAllocate
    rw [List.findIdx?_eq_none_iff]
    intro a ha
    simp [(hfull a ha).1]
  simp only [listStart, hfind, halloc]

/-- Witness for C6 amended at the concrete exhausted pool. -/
theorem claim_C6_witness :
    (∀ a ∈ fullPool, a.active = true ∧ a.target ≠ some 0)
    ∧ listStart fullPool envFive (some 0) 10 20 0 100 EaseKind.linear
        = (fullPool, envFive) :=
  ⟨by decide, claim_C6_amended fullPool envFive 0 10 20 0 100 EaseKind.linear
    (by decide)⟩

/-! ## Angle normalization and coverage lemmas -/

theorem qnorm_eq_self {x : ℚ} (h0 : 0 ≤ x) (h1 : x < 360) : qnorm x = x := by
  unfold qnorm
  have : ⌊x / 360⌋ = 0 := by
    rw [Int.floor_eq_zero_iff]
    constructor
    · positivity
    · rw [div_lt_one (by norm_num)]
      exact h1
  rw [this]
  push_cast
  ring

theorem qnorm_neg_add {x : ℚ} (h0 : -360 ≤ x) (h1 : x < 0) : qnorm x = x + 360 := by
  unfold qnorm
  have : ⌊x / 360⌋ = -1 := by
    rw [Int.floor_eq_iff]
    constructor
    · push_cast
      linarith
    · push_cast
      linarith [div_neg_of_neg_of_pos h1 (show (0:ℚ) < 360 by norm_num)]
  rw [this]
  push_cast
  ring

theorem qnorm_nonneg (x : ℚ) : 0 ≤ qnorm x := by
  unfold qnorm
  have := Int.floor_le (x / 360)
  nlinarith [this]

theorem qnorm_lt_360 (x : ℚ) : qnorm x < 360 := by
  unfold qnorm
  have := Int.lt_floor_add_one (x / 360)
  nlinarith [this]

theorem paintRingSegment_eq {x y : ℚ} (hx0 : 0 ≤ x) (hx : x < 360)
    (hxy : ANGLE_EPS < y - x) (f a : ℕ) :
    paintRingSegment x y f a
      = [RenderOp.seg Zone.sector x y f, RenderOp.seg Zone.band x y a] := by
  have heps : (0:ℚ) < ANGLE_EPS := by norm_num [ANGLE_EPS]
  have h1 : ¬ (y - x < 0) := by linarith
  have h2 : ¬ (y - x ≤ ANGLE_EPS) := by linarith
  simp only [paintRingSegment, if_neg h1, if_neg h2, qnorm_eq_self hx0 hx]
  have h4 : x + (y - x) = y := by ring
  rw [h4]

/-- Characterization of `fsCovered` for a non-wrapping sub-circle sweep
`[x, y)` with `0 ≤ x < y ≤ 360`, not the full circle, at a screen angle
`a ∈ [0, 360)`. -/
theorem fsCovered_char {x y a : ℚ} (hx0 : 0 ≤ x) (hxy : x < y) (hy : y ≤ 360)
    (hnotfull : 0 < x ∨ y < 360) (ha0 : 0 ≤ a) (ha : a < 360) :
    fsCovered x y a ↔ x ≤ a ∧ a < y := by
  have hx360 : x < 360 := by rcases hnotfull with h | h <;> linarith
  simp only [fsCovered]
  rw [qnorm_eq_self hx0 hx360]
  rcases eq_or_lt_of_le hy with h360 | hylt
  · subst h360
    have hxpos : 0 < x := by
      rcases hnotfull with h | h
      · exact h
      · linarith
    have hq : qnorm (360 : ℚ) = 0 := by
      unfold qnorm
      norm_num
    rw [hq, if_pos (by linarith : (0:ℚ) - x < 0)]
    by_cases hax : x ≤ a
    · rw [qnorm_eq_self (by linarith) (by linarith)]
      constructor
      · intro _
        exact ⟨hax, by linarith⟩
      · intro _
        linarith
    · push_neg at hax
      rw [qnorm_neg_add (by linarith) (by linarith)]
      constructor
      · intro h
        linarith
      · rintro ⟨h1, _⟩
        linarith
  · rw [qnorm_eq_self (by linarith) hylt, if_neg (by linarith : ¬ (y - x < 0))]
    by_cases hax : x ≤ a
    · rw [qnorm_eq_self (by linarith) (by linarith)]
      constructor
      · intro h
        exact ⟨hax, by linarith⟩
      · rintro ⟨_, h2⟩
        linarith
    · push_neg at hax
      rw [qnorm_neg_add (by linarith) (by linarith)]
      constructor
      · intro h
        linarith
      · rintro ⟨h1, _⟩
        linarith

/-- A requested full-circle paint covers nothing: `fillSector` normalizes
both endpoint angles to the same value and computes a zero sweep. -/
theorem fsCovered_full (a : ℚ) : ¬ fsCovered 0 360 a := by
  have h0 : qnorm (0 : ℚ) = 0 := by
    unfold qnorm
    norm_num
  have h360 : qnorm (360 : ℚ) = 0 := by
    unfold qnorm
    norm_num
  simp only [fsCovered, h0, h360]
  norm_num
  exact qnorm_nonneg _

/-! ## Wedge cache replay lemmas -/

theorem wedgeEnd_nonneg (r : ℚ) : 0 ≤ wedgeEnd r := by
  unfold wedgeEnd hourScaledFraction
  have h := clampf_mem (r / (60 * (601 / 10))) (show (0:ℚ) ≤ 1 by norm_num)
  nlinarith [h.1]

theorem lastD_cons (e x : ℚ) (l : List ℚ) : lastD e (x :: l) = lastD x l := rfl

theorem lastD_map (g : ℚ → ℚ) (x : ℚ) (l : List ℚ) :
    lastD (g x) (l.map g) = g (lastD x l) := by
  induction l generalizing x with
  | nil => rfl
  | cons y l ih => simpa [lastD_cons] using ih y

theorem lastD_mem (x : ℚ) (l : List ℚ) : lastD x l = x ∨ lastD x l ∈ l := by
  induction l generalizing x with
  | nil => exact Or.inl rfl
  | cons y l ih =>
    rcases ih y with h | h
    · exact Or.inr (by rw [lastD_cons, h]; exact List.mem_cons_self _ _)
    · exact Or.inr (by rw [lastD_cons]; exact List.mem_cons_of_mem _ h)

theorem fsCovered_self (x a : ℚ) : ¬ fsCovered x x a := by
  simp only [fsCovered, sub_self, if_neg (lt_irrefl (0:ℚ))]
  exact not_lt.mpr (qnorm_nonneg _)

theorem clearDialArea_eq (bg : ℕ) :
    clearDialArea bg
      = [RenderOp.seg Zone.sector 0 360 bg, RenderOp.seg Zone.band 0 360 bg] := by
  have hq : qnorm (0:ℚ) = 0 := by unfold qnorm; norm_num
  simp only [clearDialArea, paintRingSegment, hq]
  norm_num [ANGLE_EPS]

theorem runOps_append2 (c : Canvas) (l1 l2 : List RenderOp) :
    runOps c (l1 ++ l2) = runOps (runOps c l1) l2 := by
  unfold runOps
  exact List.foldl_append _ _ _ _

/-- Replaying the `fillSector`/`fillArc` pair of one painted band `[x, y)`
over a canvas: angles inside the band take the painted colors, all others
keep their previous color. -/
theorem runOps_band (c : Canvas) {x y : ℚ} (hx0 : 0 ≤ x) (hxy : x < y)
    (hy : y ≤ 360) (hnotfull : 0 < x ∨ y < 360) (f arc : ℕ) (z : Zone) (a : ℚ)
    (ha0 : 0 ≤ a) (ha : a < 360) :
    runOps c [RenderOp.seg Zone.sector x y f, RenderOp.seg Zone.band x y arc] z a
      = if x ≤ a ∧ a < y then (match z with | .sector => f | .band => arc)
        else c z a := by
  have hcov := fsCovered_char hx0 hxy hy hnotfull ha0 ha
  unfold runOps
  simp only [List.foldl, applyOp]
  cases z <;> by_cases hab : x ≤ a ∧ a < y
  · rw [if_pos hab]
    simp [hcov, hab]
  · rw [if_neg hab]
    simp only [hcov]
    simp [hab]
  · rw [if_pos hab]
    simp [hcov, hab]
  · rw [if_neg hab]
    simp only [hcov]
    simp [hab]

/-- Reduction of the cached `drawRemainingWedge` when the cache is valid
and the color is unchanged: only the angular delta is repainted. -/
theorem drawRemainingWedge_cached (cache : DialCache) (r total : ℚ)
    (paused : Bool) (bg : ℕ) (htotal : 0 < total)
    (hv : cache.wedgeValid = true) (hc : cache.wedgeColor = wcol paused) :
    drawRemainingWedge cache r total paused bg
      = ({ cache with
            prevWedgeEndDeg := cache.wedgeEndDeg
            wedgeValid := true
            wedgeEndDeg := wedgeEnd r
            wedgeColor := wcol paused },
         if wedgeEnd r + ANGLE_EPS < cache.wedgeEndDeg then
           paintRingSegment (wedgeEnd r) cache.wedgeEndDeg bg bg
         else if cache.wedgeEndDeg + ANGLE_EPS < wedgeEnd r then
           paintRingSegment cache.wedgeEndDeg (wedgeEnd r) (wcol paused) COL_RED_DARK
         else []) := by
  unfold drawRemainingWedge
  rw [if_neg (not_le.mpr htotal)]
  simp only [hv, hc, wedgeEnd, wcol, hourScaledFraction]
  norm_num

/-- Reduction of the cached `drawRemainingWedge` when the cache is invalid:
the ring is cleared (a full-circle request, which covers nothing) and the
wedge is painted from scratch when beyond `ANGLE_EPS`. -/
theorem drawRemainingWedge_invalid (cache : DialCache) (r total : ℚ)
    (paused : Bool) (bg : ℕ) (htotal : 0 < total)
    (hv : cache.wedgeValid = false) :
    drawRemainingWedge cache r total paused bg
      = ({ cache with
            prevWedgeEndDeg := cache.wedgeEndDeg
            wedgeValid := true
            wedgeEndDeg := wedgeEnd r
            wedgeColor := wcol paused },
         clearDialArea bg ++
           (if ANGLE_EPS < wedgeEnd r then
              paintRingSegment 0 (wedgeEnd r) (wcol paused) COL_RED_DARK
            else [])) := by
  unfold drawRemainingWedge
  rw [if_neg (not_le.mpr htotal)]
  simp only [hv, wedgeEnd, wcol, hourScaledFraction]
  norm_num

/-- The uncached full repaint over a background canvas produces exactly the
wedge image at `wedgeEnd r` (its full-circle clear covers nothing, but the
canvas is already background). -/
theorem full_repaint_canvas (r total : ℚ) (paused : Bool) (htotal : 0 < total)
    (hr : wedgeEnd r < 360) (z : Zone) (a : ℚ) (ha0 : 0 ≤ a) (ha : a < 360) :
    runOps bgCanvas (drawRemainingWedgeFull r total paused) z a
      = wedgeCanvas (wcol paused) COL_RED_DARK COL_BG (wedgeEnd r) z a := by
  have hops : drawRemainingWedgeFull r total paused
      = [RenderOp.seg .sector 0 360 COL_BG, RenderOp.seg .band 0 360 COL_BG,
         RenderOp.seg .sector 0 (wedgeEnd r) (wcol paused),
         RenderOp.seg .band 0 (wedgeEnd r) COL_RED_DARK] := by
    unfold drawRemainingWedgeFull
    rw [if_neg (not_le.mpr htotal)]
    simp only [wedgeEnd, wcol, hourScaledFraction]
    norm_num
  rw [hops]
  unfold runOps
  simp only [List.foldl, applyOp]
  rcases eq_or_lt_of_le (wedgeEnd_nonneg r) with h0 | hpos
  · rw [← h0]
    simp only [fsCovered_full, fsCovered_self, and_false, if_false, wedgeCanvas,
      bgCanvas]
    rw [if_neg (not_lt.mpr ha0)]
  · have hcov := fsCovered_char (le_refl (0:ℚ)) hpos (le_of_lt hr)
      (Or.inr hr) ha0 ha
    simp only [fsCovered_full, and_false, if_false, hcov, wedgeCanvas, bgCanvas]
    cases z <;> by_cases hae : a < wedgeEnd r <;>
      simp [hae, ha0]

/-- Invariant of the cached wedge replay: starting from a valid cache at
end angle `e` whose visual state is the wedge image at `e`, replaying a
chain of remaining-time values whose successive end angles either coincide
or differ by more than `ANGLE_EPS` (all below 360) yields the wedge image
at the final end angle. -/
theorem wedgeSeq_inv (total : ℚ) (paused : Bool) (htotal : 0 < total)
    (rs : List ℚ) :
    ∀ (cache : DialCache) (e : ℚ) (C : Canvas),
    cache.wedgeValid = true → cache.wedgeColor = wcol paused →
    cache.wedgeEndDeg = e → 0 ≤ e → e < 360 →
    (∀ r ∈ rs, wedgeEnd r < 360) →
    List.Chain stepOK e (rs.map wedgeEnd) →
    (∀ z a, 0 ≤ a → a < 360 →
      C z a = wedgeCanvas (wcol paused) COL_RED_DARK COL_BG e z a) →
    ((runWedgeSeq cache total paused COL_BG rs).1.wedgeValid = true
     ∧ (runWedgeSeq cache total paused COL_BG rs).1.wedgeColor = wcol paused
     ∧ (runWedgeSeq cache total paused COL_BG rs).1.wedgeEndDeg
         = lastD e (rs.map wedgeEnd))
    ∧ ∀ z a, 0 ≤ a → a < 360 →
        runOps C (runWedgeSeq cache total paused COL_BG rs).2 z a
          = wedgeCanvas (wcol paused) COL_RED_DARK COL_BG
              (lastD e (rs.map wedgeEnd)) z a := by
  induction rs with
  | nil =>
    intro cache e C hv hc he he0 he360 hlt hchain hC
    exact ⟨⟨hv, hc, he⟩, fun z a ha0 ha => hC z a ha0 ha⟩
  | cons r rest ih =>
    intro cache e C hv hc he he0 he360 hlt hchain hC
    rw [List.map_cons, List.chain_cons] at hchain
    obtain ⟨hstep, hchain2⟩ := hchain
    have hr360 : wedgeEnd r < 360 := hlt r (List.mem_cons_self _ _)
    have hd := drawRemainingWedge_cached cache r total paused COL_BG htotal hv hc
    rw [he] at hd
    have hseq : runWedgeSeq cache total paused COL_BG (r :: rest)
        = ((runWedgeSeq (drawRemainingWedge cache r total paused COL_BG).1
              total paused COL_BG rest).1,
           (drawRemainingWedge cache r total paused COL_BG).2
             ++ (runWedgeSeq (drawRemainingWedge cache r total paused COL_BG).1
                  total paused COL_BG rest).2) := rfl
    have hC2 : ∀ z a, 0 ≤ a → a < 360 →
        runOps C (drawRemainingWedge cache r total paused COL_BG).2 z a
          = wedgeCanvas (wcol paused) COL_RED_DARK COL_BG (wedgeEnd r) z a := by
      intro z a ha0 ha
      rw [hd]
      rcases hstep with heq | hfar
      · have hnone : ¬ (wedgeEnd r + ANGLE_EPS < e) := by
          rw [heq]
          norm_num [ANGLE_EPS]
        have hnone2 : ¬ (e + ANGLE_EPS < wedgeEnd r) := by
          rw [heq]
          norm_num [ANGLE_EPS]
        simp only [if_neg hnone, if_neg hnone2]
        rw [show runOps C [] = C from rfl, hC z a ha0 ha, heq]
      · rcases lt_or_le (wedgeEnd r) e with hlt2 | hge
        · have habs : ANGLE_EPS < e - wedgeEnd r := by
            rw [abs_sub_comm, abs_of_pos (by linarith)] at hfar
            linarith
          rw [if_pos (by linarith)]
          rw [paintRingSegment_eq (wedgeEnd_nonneg r) (by linarith)
            (by linarith) _ _]
          rw [runOps_band C (wedgeEnd_nonneg r) (by linarith)
            (le_of_lt he360) (Or.inr he360) _ _ z a ha0 ha]
          rw [hC z a ha0 ha]
          unfold wedgeCanvas
          by_cases h1 : wedgeEnd r ≤ a ∧ a < e
          · rw [if_pos h1, if_neg (not_lt.mpr h1.1)]
            cases z <;> rfl
          · rw [if_neg h1]
            push_neg at h1
            by_cases h2 : a < wedgeEnd r
            · rw [if_pos h2, if_pos (by linarith)]
            · rw [if_neg h2]
              push_neg at h2
              rw [if_neg (not_lt.mpr (le_trans (h1 h2) (le_refl _)))]
        · have habs : ANGLE_EPS < wedgeEnd r - e := by
            rcases eq_or_lt_of_le hge with hEq | hgt
            · rw [← hEq] at hfar
              norm_num [ANGLE_EPS] at hfar
            · rw [abs_of_pos (by linarith)] at hfar
              linarith
          have heps : (0:ℚ) < ANGLE_EPS := by norm_num [ANGLE_EPS]
          rw [if_neg (not_lt.mpr (by linarith)), if_pos (by linarith)]
          rw [paintRingSegment_eq he0 he360 (by linarith) _ _]
          rw [runOps_band C he0 (by linarith) (le_of_lt hr360)
            (Or.inr hr360) _ _ z a ha0 ha]
          rw [hC z a ha0 ha]
          unfold wedgeCanvas
          by_cases h1 : e ≤ a ∧ a < wedgeEnd r
          · rw [if_pos h1, if_pos h1.2]
          · rw [if_neg h1]
            push_neg at h1
            by_cases h2 : a < e
            · rw [if_pos h2, if_pos (by linarith)]
            · rw [if_neg h2]
              push_neg at h2
              rw [if_neg (not_lt.mpr (h1 h2))]
    have hcache : (drawRemainingWedge cache r total paused COL_BG).1.wedgeValid = true
        ∧ (drawRemainingWedge cache r total paused COL_BG).1.wedgeColor = wcol paused
        ∧ (drawRemainingWedge cache r total paused COL_BG).1.wedgeEndDeg = wedgeEnd r := by
      rw [hd]
      exact ⟨rfl, rfl, rfl⟩
    have hrec := ih (drawRemainingWedge cache r total paused COL_BG).1 (wedgeEnd r)
      (runOps C (drawRemainingWedge cache r total paused COL_BG).2)
      hcache.1 hcache.2.1 hcache.2.2 (wedgeEnd_nonneg r) hr360
      (fun r2 h2 => hlt r2 (List.mem_cons_of_mem _ h2)) hchain2 hC2
    rw [hseq]
    refine ⟨⟨hrec.1.1, hrec.1.2.1, ?_⟩, ?_⟩
    · rw [hrec.1.2.2, List.map_cons, lastD_cons]
    · intro z a ha0 ha
      rw [runOps_append2, List.map_cons, lastD_cons]
      exact hrec.2 z a ha0 ha

/-- Replaying the full-circle clear changes nothing: its `fillSector` and
`fillArc` calls normalize both endpoints to 0 and compute a zero sweep. -/
theorem runOps_clear (c : Canvas) (bg : ℕ) (z : Zone) (a : ℚ) :
    runOps c (clearDialArea bg) z a = c z a := by
  rw [clearDialArea_eq]
  unfold runOps
  simp [List.foldl, applyOp, fsCovered_full]

/-- Visual state left by the initial (cache-invalid) wedge paint over a
background canvas, provided the first end angle is 0 or beyond `ANGLE_EPS`. -/
theorem initial_paint_canvas (r0 total : ℚ) (paused : Bool) (htotal : 0 < total)
    (h0lt : wedgeEnd r0 < 360)
    (hinit : wedgeEnd r0 = 0 ∨ ANGLE_EPS < wedgeEnd r0) :
    ∀ z a, 0 ≤ a → a < 360 →
      runOps bgCanvas (drawRemainingWedge {} r0 total paused COL_BG).2 z a
        = wedgeCanvas (wcol paused) COL_RED_DARK COL_BG (wedgeEnd r0) z a := by
  have hd := drawRemainingWedge_invalid ({} : DialCache) r0 total paused COL_BG
    htotal rfl
  intro z a ha0 ha
  rw [hd]
  show runOps bgCanvas (clearDialArea COL_BG ++ _) z a = _
  rw [runOps_append2]
  rcases hinit with h0 | hpos
  · rw [h0, if_neg (by norm_num [ANGLE_EPS] : ¬ ((ANGLE_EPS : ℚ) < 0))]
    show runOps bgCanvas (clearDialArea COL_BG) z a = _
    rw [runOps_clear]
    unfold wedgeCanvas bgCanvas
    rw [if_neg (not_lt.mpr ha0)]
  · have heps : (0:ℚ) < ANGLE_EPS := by norm_num [ANGLE_EPS]
    rw [if_pos hpos,
      paintRingSegment_eq (le_refl (0:ℚ)) (by norm_num) (by linarith) _ _,
      runOps_band _ (le_refl (0:ℚ)) (by linarith) (le_of_lt h0lt)
        (Or.inr h0lt) _ _ z a ha0 ha, runOps_clear]
    unfold wedgeCanvas bgCanvas
    by_cases hae : a < wedgeEnd r0
    · rw [if_pos ⟨ha0, hae⟩, if_pos hae]
    · rw [if_neg (fun hcon => hae hcon.2), if_neg hae]

/-- Counterexample to C7: a sub-epsilon fraction update advances the cache
but repaints nothing.  Painting remaining seconds 1000 then 999 of a 3600 s
total (end angles 60000/601 and 59940/601 degrees, 60/601 < ANGLE_EPS
apart) leaves the probe angle 59970/601 wedge-colored, while a single full
repaint at 999 leaves it background — the final visual states differ. -/
theorem claim_C7_counterexample :
    runOps bgCanvas (runWedgeSeq {} 3600 false COL_BG [1000, 999]).2
        Zone.sector (59970 / 601) = COL_RED
    ∧ runOps bgCanvas (drawRemainingWedgeFull 999 3600 false)
        Zone.sector (59970 / 601) = COL_BG
    ∧ COL_RED ≠ COL_BG := by
  have he0 : wedgeEnd 1000 = 60000 / 601 := by
    unfold wedgeEnd hourScaledFraction clampf
    norm_num
  have he1 : wedgeEnd 999 = 59940 / 601 := by
    unfold wedgeEnd hourScaledFraction clampf
    norm_num
  have hd0 := drawRemainingWedge_invalid ({} : DialCache) 1000 3600 false COL_BG
    (by norm_num) rfl
  have hv1 : (drawRemainingWedge {} 1000 3600 false COL_BG).1.wedgeValid = true := by
    rw [hd0]
  have hcol1 : (drawRemainingWedge {} 1000 3600 false COL_BG).1.wedgeColor
      = wcol false := by
    rw [hd0]
  have hend1 : (drawRemainingWedge {} 1000 3600 false COL_BG).1.wedgeEndDeg
      = wedgeEnd 1000 := by
    rw [hd0]
  have hd1 := drawRemainingWedge_cached (drawRemainingWedge {} 1000 3600 false COL_BG).1
    999 3600 false COL_BG (by norm_num) hv1 hcol1
  rw [hend1] at hd1
  have hops1 : (drawRemainingWedge (drawRemainingWedge {} 1000 3600 false COL_BG).1
      999 3600 false COL_BG).2 = [] := by
    rw [hd1]
    dsimp only
    rw [if_neg (by rw [he0, he1]; norm_num [ANGLE_EPS]),
      if_neg (by rw [he0, he1]; norm_num [ANGLE_EPS])]
  have hseq : (runWedgeSeq ({} : DialCache) 3600 false COL_BG [1000, 999]).2
      = (drawRemainingWedge {} 1000 3600 false COL_BG).2
        ++ ((drawRemainingWedge (drawRemainingWedge {} 1000 3600 false COL_BG).1
              999 3600 false COL_BG).2 ++ []) := rfl
  refine ⟨?_, ?_, by decide⟩
  · rw [hseq, hops1]
    rw [show ([] ++ [] : List RenderOp) = [] from rfl, List.append_nil]
    rw [initial_paint_canvas 1000 3600 false (by norm_num)
      (by rw [he0]; norm_num) (Or.inr (by rw [he0]; norm_num [ANGLE_EPS]))
      Zone.sector (59970 / 601) (by norm_num) (by norm_num)]
    unfold wedgeCanvas
    rw [if_pos (by rw [he0]; norm_num)]
    rfl
  · rw [full_repaint_canvas 999 3600 false (by norm_num)
      (by rw [he1]; norm_num) Zone.sector (59970 / 601) (by norm_num)
      (by norm_num)]
    unfold wedgeCanvas
    rw [if_neg (by rw [he1]; norm_num)]

/-- C7 amended: the incremental wedge redraw is equivalent to a full
repaint provided each rendered end angle stays below 360 degrees, the
first end angle is 0 or beyond `ANGLE_EPS`, and every successive end angle
either equals the cached one exactly or moves by more than `ANGLE_EPS`
(the repaint threshold).  Without the epsilon spacing the cache advances
while the band between the old and new angle is never repainted, so the
states diverge (see the counterexample). -/
theorem claim_C7_amended (total : ℚ) (paused : Bool) (r0 : ℚ) (rs : List ℚ)
    (htotal : 0 < total)
    (h0lt : wedgeEnd r0 < 360) (hlt : ∀ r ∈ rs, wedgeEnd r < 360)
    (hinit : wedgeEnd r0 = 0 ∨ ANGLE_EPS < wedgeEnd r0)
    (hchain : List.Chain stepOK (wedgeEnd r0) (rs.map wedgeEnd)) :
    ∀ z a, 0 ≤ a → a < 360 →
      runOps bgCanvas (runWedgeSeq {} total paused COL_BG (r0 :: rs)).2 z a
        = runOps bgCanvas (drawRemainingWedgeFull (lastD r0 rs) total paused) z a := by
  have hd := drawRemainingWedge_invalid ({} : DialCache) r0 total paused COL_BG
    htotal rfl
  have hcache : (drawRemainingWedge {} r0 total paused COL_BG).1.wedgeValid = true
      ∧ (drawRemainingWedge {} r0 total paused COL_BG).1.wedgeColor = wcol paused
      ∧ (drawRemainingWedge {} r0 total paused COL_BG).1.wedgeEndDeg = wedgeEnd r0 := by
    rw [hd]
    exact ⟨rfl, rfl, rfl⟩
  have hrec := wedgeSeq_inv total paused htotal rs
    (drawRemainingWedge {} r0 total paused COL_BG).1 (wedgeEnd r0)
    (runOps bgCanvas (drawRemainingWedge {} r0 total paused COL_BG).2)
    hcache.1 hcache.2.1 hcache.2.2 (wedgeEnd_nonneg r0) h0lt hlt hchain
    (initial_paint_canvas r0 total paused htotal h0lt hinit)
  have hlast : wedgeEnd (lastD r0 rs) < 360 := by
    rcases lastD_mem r0 rs with h | h
    · rw [h]
      exact h0lt
    · exact hlt _ h
  intro z a ha0 ha
  rw [show (runWedgeSeq ({} : DialCache) total paused COL_BG (r0 :: rs)).2
      = (drawRemainingWedge {} r0 total paused COL_BG).2
        ++ (runWedgeSeq (drawRemainingWedge {} r0 total paused COL_BG).1
             total paused COL_BG rs).2 from rfl]
  rw [runOps_append2, hrec.2 z a ha0 ha,
    full_repaint_canvas (lastD r0 rs) total paused htotal hlast z a ha0 ha,
    lastD_map wedgeEnd r0 rs]

/-- Witness for C7 amended: a single-step replay at 1000 s of a 3600 s
total agrees with the full repaint at the probe angle 10. -/
theorem claim_C7_witness :
    runOps bgCanvas (runWedgeSeq {} 3600 false COL_BG [1000]).2 Zone.sector 10
      = runOps bgCanvas (drawRemainingWedgeFull 1000 3600 false) Zone.sector 10 :=
  claim_C7_amended 3600 false 1000 [] (by norm_num)
    (by unfold wedgeEnd hourScaledFraction clampf; norm_num)
    (by simp)
    (Or.inr (by unfold wedgeEnd hourScaledFraction clampf; norm_num [ANGLE_EPS]))
    List.Chain.nil Zone.sector 10 (by norm_num) (by norm_num)

/-! ## C8: restore color of the pointer erase pass -/

/-- Counterexample to C8: `drawMinuteHand` picks the restore color by
comparing the previous and current wedge end angles, not the pointer's
previous angle.  With the wedge unchanged at 50 degrees and the previous
pointer at 100 degrees (outside the wedge by far more than `ANGLE_EPS`),
the claim demands a background restore, but the emitted restore paint uses
the cached wedge color. -/
theorem claim_C8_counterexample :
    handCache.wedgeEndDeg + ANGLE_EPS < handCache.pointerAngleDeg
    ∧ (drawMinuteHand handCache 1000 3600 COL_BG COL_RED_DARK COL_RED).2.head?
        = some (RenderOp.seg Zone.sector (195 / 2) 100 COL_RED)
    ∧ COL_RED ≠ COL_BG := by
  have hops : (drawMinuteHand handCache 1000 3600 COL_BG COL_RED_DARK COL_RED).2
      = paintRingSegment (100 - POINTER_RESTORE_SPAN) 100 COL_RED COL_RED_DARK
        ++ [RenderOp.handLine (360 * hourScaledFraction 1000 - 1) COL_RED_DARK,
            RenderOp.seg Zone.sector (360 * hourScaledFraction 1000)
              (360 * hourScaledFraction 1000 + 10) COL_BG,
            RenderOp.circle 120 120 6 COL_RED] := by
    unfold drawMinuteHand
    rw [if_neg (by norm_num)]
    norm_num [handCache, ANGLE_EPS]
  refine ⟨by norm_num [handCache, ANGLE_EPS], ?_, by decide⟩
  rw [hops, paintRingSegment_eq (by norm_num [POINTER_RESTORE_SPAN])
    (by norm_num [POINTER_RESTORE_SPAN])
    (by norm_num [POINTER_RESTORE_SPAN, ANGLE_EPS])]
  norm_num [POINTER_RESTORE_SPAN]

/-- C8 amended: when `drawMinuteHand` erases the previous pointer, the
restore color is chosen by comparing the previous wedge end angle with the
current wedge end angle (background when the wedge shrank by more than
`ANGLE_EPS`, wedge color otherwise).  Under the `renderAll` calling pattern
the cached pointer angle equals the previous wedge end angle, and with that
equality the comparison coincides with the claim's: the span is restored
with the wedge color exactly when the previous pointer angle lies within
the current wedge (up to `ANGLE_EPS`), and with the background otherwise. -/
theorem claim_C8_amended (cache : DialCache) (remainingSec totalSec : ℚ)
    (bg pc hc : ℕ) (htotal : 0 < totalSec) (hpv : cache.pointerValid = true)
    (heq : cache.pointerAngleDeg = cache.prevWedgeEndDeg) :
    (drawMinuteHand cache remainingSec totalSec bg pc hc).2 =
      (if cache.wedgeEndDeg + ANGLE_EPS < cache.pointerAngleDeg then
          paintRingSegment (cache.pointerAngleDeg - POINTER_RESTORE_SPAN)
            cache.pointerAngleDeg bg bg
        else
          paintRingSegment (cache.pointerAngleDeg - POINTER_RESTORE_SPAN)
            cache.pointerAngleDeg cache.wedgeColor COL_RED_DARK)
      ++ [RenderOp.handLine (360 * hourScaledFraction remainingSec - 1) pc,
          RenderOp.seg Zone.sector (360 * hourScaledFraction remainingSec)
            (360 * hourScaledFraction remainingSec + 10) bg,
          RenderOp.circle 120 120 6 hc] := by
  unfold drawMinuteHand
  rw [if_neg (not_le.mpr htotal)]
  simp only [hpv, if_true, heq]

/-- Witness for C8 amended at a concrete cache whose pointer angle equals
the previous wedge end. -/
theorem claim_C8_witness :
    (drawMinuteHand handCacheEq 1000 3600 COL_BG COL_RED_DARK COL_RED).2 =
      (if handCacheEq.wedgeEndDeg + ANGLE_EPS < handCacheEq.pointerAngleDeg then
          paintRingSegment (handCacheEq.pointerAngleDeg - POINTER_RESTORE_SPAN)
            handCacheEq.pointerAngleDeg COL_BG COL_BG
        else
          paintRingSegment (handCacheEq.pointerAngleDeg - POINTER_RESTORE_SPAN)
            handCacheEq.pointerAngleDeg handCacheEq.wedgeColor COL_RED_DARK)
      ++ [RenderOp.handLine (360 * hourScaledFraction 1000 - 1) COL_RED_DARK,
          RenderOp.seg Zone.sector (360 * hourScaledFraction 1000)
            (360 * hourScaledFraction 1000 + 10) COL_BG,
          RenderOp.circle 120 120 6 COL_RED] :=
  claim_C8_amended handCacheEq 1000 3600 COL_BG COL_RED_DARK COL_RED
    (by norm_num) rfl rfl

/-! ## C9: zero total duration short-circuit -/

/-- Counterexample to C9: with a zero total, `drawBlinkingTip` does not
return without drawing — when a blink dot is currently visible its
`clearPrevious` pass still emits one `fillCircle` erase. -/
theorem claim_C9_counterexample :
    tipCache.blinkVisible = true
    ∧ (drawBlinkingTip projZero tipCache 10 0 true COL_BG).2
        = [RenderOp.circle 3 4 5 COL_BG]
    ∧ (drawBlinkingTip projZero tipCache 10 0 true COL_BG).2 ≠ [] := by
  have hops : (drawBlinkingTip projZero tipCache 10 0 true COL_BG).2
      = [RenderOp.circle 3 4 5 COL_BG] := by
    unfold drawBlinkingTip
    norm_num [tipCache, ANGLE_EPS]
  exact ⟨rfl, hops, by rw [hops]; simp⟩

/-- C9 amended: with `totalSec ≤ 0`, `drawRemainingWedge` and
`drawMinuteHand` return immediately with no draw call; `drawBlinkingTip`
draws no new tip but still erases a previously visible dot (one
`fillCircle`) and clears its visibility flag; and the division
`remainingSec / totalSec` is never evaluated — the result is independent
of `remainingSec`. -/
theorem claim_C9_amended (proj : ℚ → ℤ × ℤ) (cache : DialCache)
    (r totalSec : ℚ) (paused isOn : Bool) (bg pc hc : ℕ)
    (htotal : totalSec ≤ 0) :
    drawRemainingWedge cache r totalSec paused bg = (cache, [])
    ∧ drawMinuteHand cache r totalSec bg pc hc = (cache, [])
    ∧ (drawBlinkingTip proj cache r totalSec isOn bg =
        ({ cache with blinkVisible := false },
         if cache.blinkVisible then
           [RenderOp.circle cache.blinkX cache.blinkY 5
             (if cache.blinkAngleDeg ≤ cache.wedgeEndDeg + ANGLE_EPS
              then cache.wedgeColor else bg)]
         else []))
    ∧ ∀ r2 : ℚ, drawBlinkingTip proj cache r totalSec isOn bg
        = drawBlinkingTip proj cache r2 totalSec isOn bg := by
  refine ⟨?_, ?_, ?_, ?_⟩
  · unfold drawRemainingWedge
    rw [if_pos htotal]
  · unfold drawMinuteHand
    rw [if_pos htotal]
  · unfold drawBlinkingTip
    rw [if_pos (Or.inr htotal)]
  · intro r2
    unfold drawBlinkingTip
    rw [if_pos (Or.inr htotal), if_pos (Or.inr htotal)]

/-- Witness for C9 amended at the zero total. -/
theorem claim_C9_witness :
    drawRemainingWedge tipCache 10 0 false COL_BG = (tipCache, [])
    ∧ drawMinuteHand tipCache 10 0 COL_BG COL_RED_DARK COL_RED = (tipCache, []) :=
  ⟨(claim_C9_amended projZero tipCache 10 0 false true COL_BG COL_RED_DARK
      COL_RED (le_refl 0)).1,
   (claim_C9_amended projZero tipCache 10 0 false true COL_BG COL_RED_DARK
      COL_RED (le_refl 0)).2.1⟩

end Pomodoro
